import Mathlib

/-!
Verification development for the Base64-to-PDF converter (src/script.js).

The convert-button click handler is embedded as a pure step function over an
explicit application state; the browser primitives it calls (`atob`, `btoa`,
`JSON.parse` result, `URL.createObjectURL` / `URL.revokeObjectURL`) are
embedded by their specified platform semantics: `atob` is the WHATWG
forgiving-base64 decoder, `btoa` is the RFC 4648 base64 encoder over latin-1
code units, and object URLs are modelled as fresh numeric handles drawn from
a counter.  `JSON.parse` results are passed to the extractor as an
`Option Json` value since the extractor only branches on parse success and
on the parsed value.
-/

/-- The ECMAScript regex class `[A-Za-z0-9+/=]` used by both the dirty-input
test and the long-run scan in the click handler (src/script.js lines 138-140). -/
def isB64Char (c : Char) : Bool :=
  (65 ≤ c.toNat && c.toNat ≤ 90) || (97 ≤ c.toNat && c.toNat ≤ 122) ||
  (48 ≤ c.toNat && c.toNat ≤ 57) || c.toNat == 43 || c.toNat == 47 || c.toNat == 61

/-- The ECMAScript whitespace class `\s` (also the set trimmed by
`String.prototype.trim`): tab, LF, VT, FF, CR, space, NBSP, and the Unicode
space separators, line separators and BOM. -/
def isJsWhitespace (c : Char) : Bool :=
  c.toNat == 0x9 || c.toNat == 0xa || c.toNat == 0xb || c.toNat == 0xc ||
  c.toNat == 0xd || c.toNat == 0x20 || c.toNat == 0xa0 || c.toNat == 0x1680 ||
  (0x2000 ≤ c.toNat && c.toNat ≤ 0x200a) || c.toNat == 0x2028 ||
  c.toNat == 0x2029 || c.toNat == 0x202f || c.toNat == 0x205f ||
  c.toNat == 0x3000 || c.toNat == 0xfeff

/-- ASCII whitespace (tab, LF, FF, CR, space), the set the WHATWG
forgiving-base64 decoder (`atob`) removes before decoding. -/
def isAsciiWs (c : Char) : Bool :=
  c.toNat == 0x9 || c.toNat == 0xa || c.toNat == 0xc || c.toNat == 0xd ||
  c.toNat == 0x20

/-- `String.prototype.trim` (used on the raw textarea value and the filename
field): drop ECMAScript whitespace from both ends. -/
def jsTrim (s : String) : String :=
  String.mk (((s.data.dropWhile isJsWhitespace).reverse.dropWhile
    isJsWhitespace).reverse)

/-- The base64 alphabet char for a sextet value (RFC 4648 table). -/
def encChar (n : Nat) : Char :=
  Char.ofNat (if n < 26 then 65 + n else if n < 52 then 71 + n
    else if n < 62 then n - 4 else if n = 62 then 43 else 47)

/-- Inverse of the base64 alphabet table: `none` for characters outside the
alphabet (including `=`). -/
def decChar (c : Char) : Option Nat :=
  if 65 ≤ c.toNat ∧ c.toNat ≤ 90 then some (c.toNat - 65)
  else if 97 ≤ c.toNat ∧ c.toNat ≤ 122 then some (c.toNat - 71)
  else if 48 ≤ c.toNat ∧ c.toNat ≤ 57 then some (c.toNat + 4)
  else if c.toNat = 43 then some 62
  else if c.toNat = 47 then some 63
  else none

/-- Byte list to sextet list: every group of 3 bytes yields 4 sextets; a
final group of 1 or 2 bytes yields 2 or 3 sextets with zero fill bits. -/
def encodeSextets : List Nat → List Nat
  | [] => []
  | [b0] => [b0 / 4, b0 % 4 * 16]
  | [b0, b1] => [b0 / 4, b0 % 4 * 16 + b1 / 16, b1 % 16 * 4]
  | b0 :: b1 :: b2 :: rest =>
    b0 / 4 :: (b0 % 4 * 16 + b1 / 16) :: (b1 % 16 * 4 + b2 / 64) :: b2 % 64 ::
      encodeSextets rest

/-- Sextet list to byte list, WHATWG forgiving-base64 bit accumulation: a
final group of 2 or 3 sextets yields 1 or 2 bytes, the leftover 4 or 2 bits
are discarded.  A leftover single sextet cannot occur after the length
check in `atobBytes`; it decodes to nothing. -/
def decodeSextets : List Nat → List Nat
  | [] => []
  | [_] => []
  | [s0, s1] => [s0 * 4 + s1 / 16]
  | [s0, s1, s2] => [s0 * 4 + s1 / 16, s1 % 16 * 16 + s2 / 4]
  | s0 :: s1 :: s2 :: s3 :: rest =>
    (s0 * 4 + s1 / 16) :: (s1 % 16 * 16 + s2 / 4) :: (s2 % 4 * 64 + s3) ::
      decodeSextets rest

/-- Number of `=` padding characters appended by the base64 encoder. -/
def padLen (n : Nat) : Nat :=
  if n % 3 = 1 then 2 else if n % 3 = 2 then 1 else 0

/-- RFC 4648 base64 encoding of a byte list (the semantics of `btoa` on the
latin-1 code units of its argument). -/
def base64Encode (bytes : List Nat) : String :=
  String.mk ((encodeSextets bytes).map encChar ++
    List.replicate (padLen bytes.length) '=')

/-- Decode a character list through the alphabet table, failing on the first
character outside the alphabet. -/
def decodeChars : List Char → Option (List Nat)
  | [] => some []
  | c :: cs =>
    match decChar c, decodeChars cs with
    | some s, some ss => some (s :: ss)
    | _, _ => none

/-- Padding removal step of forgiving-base64: when the length is a multiple
of 4, remove one trailing `=`, and then one more if present. -/
def stripPad (cs : List Char) : List Char :=
  if cs.length % 4 = 0 then
    let cs1 := if cs.getLast? = some '=' then cs.dropLast else cs
    if cs1.getLast? = some '=' then cs1.dropLast else cs1
  else cs

/-- `atob` (WHATWG forgiving-base64 decode, src/script.js line 156): strip
ASCII whitespace, strip trailing padding when the length is a multiple of 4,
fail when the remaining length is 1 mod 4 or any character is outside the
alphabet, then accumulate sextet bits into bytes.  The byte extraction loop
of lines 157-161 reads the decoded code units back off unchanged, so the
handler receives exactly this byte list. -/
def atobBytes (s : String) : Option (List Nat) :=
  let cs := stripPad (s.data.filter (fun c => !(isAsciiWs c)))
  if cs.length % 4 = 1 then none
  else
    match decodeChars cs with
    | none => none
    | some sextets => some (decodeSextets sextets)

/-- `String.fromCharCode` accumulation loop of `arrayBufferToBase64`
(src/script.js lines 27-32): one UTF-16 code unit per byte.  The bytes come
from a `Uint8Array`, so each is below 256 and in particular a valid scalar
value. -/
def fromCharCodes (bytes : List Nat) : List Char :=
  bytes.map Char.ofNat

/-- `btoa` (src/script.js line 33): fails when some code unit of the
argument exceeds 255, otherwise produces the RFC 4648 base64 encoding of the
code units. -/
def btoa (chars : List Char) : Option String :=
  if chars.all (fun c => c.toNat < 256) then
    some (base64Encode (chars.map Char.toNat))
  else none

/-- `arrayBufferToBase64` (src/script.js lines 26-34): build the code-unit
string from the buffer bytes, then `btoa` it. -/
def arrayBufferToBase64 (bytes : List Nat) : Option String :=
  btoa (fromCharCodes bytes)

/-- JSON values as produced by `JSON.parse` (numbers play no role in the
extractor beyond not being strings, so their payload is irrelevant and kept
as an integer). -/
inductive Json where
  | null : Json
  | bool (b : Bool) : Json
  | num (n : Int) : Json
  | str (s : String) : Json
  | arr (xs : List Json) : Json
  | obj (fields : List (String × Json)) : Json

/-- Property lookup on a `JSON.parse` result: only objects have own
properties, and with duplicate keys `JSON.parse` keeps the last binding. -/
def lookupLast : List (String × Json) → String → Option Json
  | [], _ => none
  | (k, v) :: rest, key =>
    match lookupLast rest key with
    | some r => some r
    | none => if k = key then some v else none

/-- `json[key]` on the parsed value. -/
def Json.get : Json → String → Option Json
  | .obj fields, key => lookupLast fields key
  | _, _ => none

/-- The fixed candidate field list of src/script.js line 127. -/
def candidateKeys : List String :=
  ["DocBase64", "DocumentBase64", "FileBase64", "PdfBase64", "Data", "PdfData"]

/-- One step of the JSON field scan (src/script.js line 129): the test
`json[key] && typeof json[key] === "string"` accepts exactly the truthy
strings, i.e. the non-empty strings. -/
def keyHit (j : Json) (key : String) : Option String :=
  match j.get key with
  | some (Json.str v) => if v = "" then none else some v
  | _ => none

/-- The JSON field scan loop (src/script.js lines 128-134): first candidate
key whose value passes `keyHit` wins. -/
def scanKeys (j : Json) : Option String :=
  candidateKeys.findSome? (keyHit j)

/-- The regex scan `rawInput.match(/[A-Za-z0-9+/=]{100,}/)` (src/script.js
line 140): leftmost match, extended greedily, i.e. the first maximal run of
base64-alphabet characters whose length reaches 100, in full.  The
accumulator holds the current run reversed. -/
def firstLongRunAux : List Char → List Char → Option (List Char)
  | [], acc => if 100 ≤ acc.length then some acc.reverse else none
  | c :: cs, acc =>
    if isB64Char c then firstLongRunAux cs (c :: acc)
    else if 100 ≤ acc.length then some acc.reverse
    else firstLongRunAux cs []

/-- String wrapper for the regex scan. -/
def firstLongRun (s : String) : Option String :=
  (firstLongRunAux s.data []).map String.mk

/-- The smart extraction block (src/script.js lines 122-146).  `parsed` is
the result of `JSON.parse rawInput` (`none` on a parse exception).  On parse
success the field scan runs; if no field hits, `base64String` keeps its
initial value `rawInput`.  On parse failure the regex fallback runs only
when the input contains a character outside `[A-Za-z0-9+/=]`, and only
replaces the input when a run of at least 100 characters is found. -/
def smartExtract (rawInput : String) (parsed : Option Json) : String :=
  match parsed with
  | some j => (scanKeys j).getD rawInput
  | none =>
    if rawInput.data.any (fun c => !(isB64Char c)) then
      (firstLongRun rawInput).getD rawInput
    else rawInput

/-- The literal PDF data-URI header of the anchored regex on src/script.js
line 150. -/
def pdfDataUriHeader : String := "data:application/pdf;base64,"

/-- `base64String.replace(/^data:application\/pdf;base64,/, "")`: the regex
is anchored and `replace` without the global flag rewrites at most one
match, so exactly one leading occurrence is removed when present. -/
def stripDataUri (s : String) : String :=
  if pdfDataUriHeader.data.isPrefixOf s.data then
    String.mk (s.data.drop pdfDataUriHeader.data.length)
  else s

/-- `base64String.replace(/\s/g, "")` (src/script.js line 152): remove every
ECMAScript whitespace character anywhere in the string. -/
def stripWs (s : String) : String :=
  String.mk (s.data.filter (fun c => !(isJsWhitespace c)))

/-- The cleanup block (src/script.js lines 148-152): strip the data-URI
header first, then strip whitespace. -/
def cleanup (s : String) : String :=
  stripWs (stripDataUri s)

/-- The filename ternary of src/script.js lines 170-171. -/
def chooseFilename (filenameVal : String) : String :=
  let userFilename := jsTrim filenameVal
  if userFilename.endsWith ".pdf" then userFilename
  else if userFilename = "" then "converted.pdf"
  else userFilename ++ ".pdf"

/-- The filename rule in the words of the specification, on the
already-trimmed user-entered name. -/
def chooseFilenameSpec (u : String) : String :=
  if u.endsWith ".pdf" then u
  else if u ≠ "" then u ++ ".pdf"
  else "converted.pdf"

/-- Observable state of the conversion and download manager: the object
URLs created and not yet revoked (`URL.createObjectURL` handles, identified
by a freshness counter), the visible download control in
`downloadContainer` with its stored `dataset.blobUrl` handle and filename,
and the status line. -/
structure AppState where
  liveUrls : List Nat
  container : Option (Nat × String)
  status : Option (String × String)
  nextUrl : Nat
deriving DecidableEq, Repr

/-- Initial page state: no handle, empty container, empty status. -/
def initState : AppState :=
  { liveUrls := [], container := none, status := none, nextUrl := 0 }

/-- The teardown block shared by the convert and clear handlers
(src/script.js lines 82-88 and 112-118): revoke the blob URL stored on the
existing download button if there is one, then empty the container. -/
def revokeExisting (st : AppState) : AppState :=
  match st.container with
  | some (u, _) => { st with liveUrls := st.liveUrls.erase u, container := none }
  | none => st

/-- The convert-button click handler (src/script.js lines 103-200).
`rawInput0` is the textarea value, `fnameVal` the filename field value and
`parsed` the result of `JSON.parse` on the trimmed input.  The status shown
at the end of the handler is the final one (intermediate `showStatus` calls
are always overwritten before the handler returns). -/
def convertStep (st : AppState) (rawInput0 fnameVal : String)
    (parsed : Option Json) : AppState :=
  if jsTrim rawInput0 = "" then
    { st with status := some ("Please provide Base64 input.", "error") }
  else
    let st1 := revokeExisting st
    match atobBytes (cleanup (smartExtract (jsTrim rawInput0) parsed)) with
    | none =>
      { st1 with
        status := some ("Invalid Base64 string. Please check the input.", "error") }
    | some _ =>
      { st1 with
        liveUrls := st1.liveUrls ++ [st1.nextUrl],
        container := some (st1.nextUrl, chooseFilename fnameVal),
        nextUrl := st1.nextUrl + 1,
        status := some ("PDF generated and download started.", "success") }

/-- The clear-button click handler (src/script.js lines 78-90): revoke the
existing handle, empty the container, clear the status (the input fields are
not part of the observed state). -/
def clearStep (st : AppState) : AppState :=
  { revokeExisting st with status := none }

/-- User events driving the manager. -/
inductive Event where
  | convert (rawInput0 fnameVal : String) (parsed : Option Json) : Event
  | clear : Event

/-- Dispatch one event. -/
def step (st : AppState) : Event → AppState
  | .convert r f p => convertStep st r f p
  | .clear => clearStep st

/-- Run a sequence of events. -/
def run (st : AppState) : List Event → AppState
  | [] => st
  | e :: es => run (step st e) es

theorem data_mk (l : List Char) : (String.mk l).data = l := rfl

theorem mk_data (s : String) : String.mk s.data = s := rfl

/-- C8: for every successful conversion the output file name comes from the
trimmed user-entered name: kept as-is when it ends with `.pdf`, with `.pdf`
appended when non-empty without that suffix, and the fixed fallback
`converted.pdf` when empty. -/
theorem C8_theorem (f : String) : chooseFilename f = chooseFilenameSpec (jsTrim f) := by
  unfold chooseFilename chooseFilenameSpec
  by_cases h1 : (jsTrim f).endsWith ".pdf" <;> by_cases h2 : jsTrim f = "" <;>
    simp [h1, h2]

/-- C5: a non-empty raw input that does not parse as JSON and contains only
base64-alphabet characters is passed through the extractor unchanged. -/
theorem C5_theorem (raw : String) (_hne : raw ≠ "")
    (h : ∀ c ∈ raw.data, isB64Char c = true) :
    smartExtract raw none = raw := by
  unfold smartExtract
  rw [if_neg]
  simp only [List.any_eq_true, not_exists, not_and]
  intro c hc
  simp [h c hc]

theorem C5_witness : smartExtract "QQ==" none = "QQ==" :=
  C5_theorem "QQ==" (by decide) (by decide)

/-- C7: when the trimmed raw input is empty, conversion reports the
validation error and changes nothing else: no handle is released or created
and the download container keeps its state. -/
theorem C7_theorem (st : AppState) (raw fname : String) (p : Option Json)
    (h : jsTrim raw = "") :
    convertStep st raw fname p =
      { st with status := some ("Please provide Base64 input.", "error") } := by
  unfold convertStep
  rw [if_pos h]

/-- A concrete page state holding one live handle and its download button. -/
def busyState : AppState :=
  { liveUrls := [0], container := some (0, "a.pdf"), status := none, nextUrl := 1 }

theorem C7_witness :
    convertStep busyState " \t" "x" none =
      { busyState with status := some ("Please provide Base64 input.", "error") } :=
  C7_theorem busyState " \t" "x" none (by decide)

/-- C9: normalization removes exactly one literal leading occurrence of the
PDF data-URI header when present (nothing is removed otherwise, so headers
for other MIME types or non-leading occurrences stay), and then removes
every ECMAScript whitespace character anywhere in the string, in that
order. -/
theorem C9_theorem (t s : String) :
    cleanup (pdfDataUriHeader ++ t) = stripWs t ∧
    (¬ pdfDataUriHeader.data.isPrefixOf s.data = true → cleanup s = stripWs s) ∧
    (∀ c ∈ (cleanup s).data, isJsWhitespace c = false) := by
  refine ⟨?_, ?_, ?_⟩
  · unfold cleanup stripDataUri
    rw [if_pos]
    · have hdata : (pdfDataUriHeader ++ t).data =
          pdfDataUriHeader.data ++ t.data := String.data_append _ _
      rw [hdata, List.drop_left, mk_data]
    · have hdata : (pdfDataUriHeader ++ t).data =
          pdfDataUriHeader.data ++ t.data := String.data_append _ _
      rw [hdata]
      exact List.isPrefixOf_iff_prefix.mpr (List.prefix_append _ _)
  · intro hnp
    unfold cleanup stripDataUri
    rw [if_neg hnp]
  · intro c hc
    unfold cleanup stripWs at hc
    rw [data_mk] at hc
    have := List.of_mem_filter hc
    simpa using this

theorem C9_witness :
    cleanup (pdfDataUriHeader ++ "Q Q==") = "QQ==" ∧
    cleanup "a c" = "ac" := by
  have h9 := C9_theorem "Q Q==" "a c"
  constructor
  · rw [h9.1]; decide
  · rw [h9.2.1 (by decide)]; decide

/-- C1 is false as stated: the handler revokes the existing handle and
empties the download container before decoding, so after a failed decode of
non-empty input the container does not equal its prior state.  Here a first
successful conversion installs a button with handle 0, and a failed second
attempt on the non-empty undecodable input `!!!` leaves the container empty
and the handle revoked. -/
theorem C1_counterexample :
    (run initState [Event.convert "QQ==" "" none]).container =
      some (0, "converted.pdf") ∧
    (run initState [Event.convert "QQ==" "" none]).liveUrls = [0] ∧
    (run initState
      [Event.convert "QQ==" "" none, Event.convert "!!!" "" none]).container =
      none ∧
    (run initState
      [Event.convert "QQ==" "" none, Event.convert "!!!" "" none]).liveUrls =
      [] := by
  refine ⟨?_, ?_, ?_, ?_⟩ <;> decide

/-- C1 (amended): if conversion is attempted on non-empty input and decoding
the normalized string fails, no new download artifact or handle is created
and the decode error is reported inline; however the previously existing
artifact does not remain untouched: the attempt first revokes its handle
and empties the download container, so the container is empty after the
failed attempt. -/
theorem C1_theorem (st : AppState) (raw fname : String) (p : Option Json)
    (hne : ¬ jsTrim raw = "")
    (hfail : atobBytes (cleanup (smartExtract (jsTrim raw) p)) = none) :
    (convertStep st raw fname p).container = none ∧
    (convertStep st raw fname p).liveUrls =
      (match st.container with
       | some (u, _) => st.liveUrls.erase u
       | none => st.liveUrls) ∧
    (convertStep st raw fname p).nextUrl = st.nextUrl ∧
    (convertStep st raw fname p).status =
      some ("Invalid Base64 string. Please check the input.", "error") := by
  unfold convertStep
  rw [if_neg hne, hfail]
  cases hc : st.container with
  | none => simp [revokeExisting, hc]
  | some p2 => obtain ⟨u, f⟩ := p2; simp [revokeExisting, hc]

theorem C1_witness :
    (convertStep busyState "!!!" "" none).container = none ∧
    (convertStep busyState "!!!" "" none).liveUrls = [] ∧
    (convertStep busyState "!!!" "" none).nextUrl = 1 ∧
    (convertStep busyState "!!!" "" none).status =
      some ("Invalid Base64 string. Please check the input.", "error") := by
  have h := C1_theorem busyState "!!!" "" none (by decide) (by decide)
  exact ⟨h.1, h.2.1.trans (by decide), h.2.2.1, h.2.2.2⟩

/-- The JSON object of the C4 counterexample: the first candidate field
holds the empty string. -/
def c4Json : Json :=
  Json.obj [("DocBase64", Json.str ""), ("Data", Json.str "QQ==")]

/-- The raw JSON text carrying `c4Json`. -/
def c4Raw : String := "\x7b\"DocBase64\":\"\",\"Data\":\"QQ==\"\x7d"

/-- C4 is false as stated: on a JSON input whose first candidate field
`DocBase64` has the (empty) string value `""`, the claim requires that value
to be selected, but the truthiness test `json[key] &&` skips empty strings
and the scan picks the later field `Data` instead. -/
theorem C4_counterexample :
    smartExtract c4Raw (some c4Json) = "QQ==" ∧
    ¬ smartExtract c4Raw (some c4Json) = "" := by
  constructor <;> decide


theorem findSome?_append_none {α β : Type} (f : α → Option β) :
    ∀ (l1 l2 : List α), (∀ a ∈ l1, f a = none) →
    (l1 ++ l2).findSome? f = l2.findSome? f
  | [], _, _ => rfl
  | a :: l1, l2, h => by
    rw [List.cons_append, List.findSome?_cons]
    rw [h a (by simp)]
    exact findSome?_append_none f l1 l2 (fun b hb => h b (by simp [hb]))

theorem keyHit_eq_none_of (j : Json) (k : String)
    (h : ∀ v, j.get k = some (Json.str v) → v = "") : keyHit j k = none := by
  unfold keyHit
  cases hjk : j.get k with
  | none => rfl
  | some jv =>
    cases jv with
    | str v => simp [h v hjk]
    | null => rfl
    | bool b => rfl
    | num n => rfl
    | arr xs => rfl
    | obj fs => rfl

/-- C4 (amended): on JSON input, the extractor selects verbatim the value of
the first candidate field (in the fixed priority order) whose value is a
non-empty string, independent of any other fields present; a candidate
field whose value is the empty string is skipped by the truthiness test.
If no candidate field holds a non-empty string value, the whole raw input
is retained. -/
theorem C4_theorem (j : Json) (raw : String) :
    (∀ pre key post v, candidateKeys = pre ++ key :: post →
      (∀ k ∈ pre, keyHit j k = none) →
      j.get key = some (Json.str v) → ¬ v = "" →
      smartExtract raw (some j) = v) ∧
    ((∀ k ∈ candidateKeys, ∀ v, j.get k = some (Json.str v) → v = "") →
      smartExtract raw (some j) = raw) := by
  constructor
  · intro pre key post v hkeys hpre hget hv
    unfold smartExtract scanKeys
    show (List.findSome? (keyHit j) candidateKeys).getD raw = v
    rw [hkeys, findSome?_append_none _ pre _ hpre, List.findSome?_cons]
    have : keyHit j key = some v := by unfold keyHit; rw [hget]; simp [hv]
    rw [this]
    rfl
  · intro h
    unfold smartExtract scanKeys
    show (List.findSome? (keyHit j) candidateKeys).getD raw = raw
    have : candidateKeys.findSome? (keyHit j) = none := by
      rw [List.findSome?_eq_none_iff]
      exact fun k hk => keyHit_eq_none_of j k (h k hk)
    rw [this]
    rfl

/-- The JSON object of the C4 witness: the third candidate field holds a
non-empty string, the earlier two are absent. -/
def c4WitJson : Json :=
  Json.obj [("FileBase64", Json.str "AA"), ("PdfData", Json.str "BB")]

/-- A JSON object with no candidate field holding a non-empty string. -/
def c4WitJson2 : Json := Json.obj [("Data", Json.num 5)]

theorem C4_witness :
    smartExtract "x" (some c4WitJson) = "AA" ∧
    smartExtract "x" (some c4WitJson2) = "x" := by
  constructor
  · exact (C4_theorem c4WitJson "x").1 ["DocBase64", "DocumentBase64"]
      "FileBase64" ["PdfBase64", "Data", "PdfData"] "AA" rfl
      (by
        intro k hk
        fin_cases hk <;> rfl)
      rfl (by decide)
  · exact (C4_theorem c4WitJson2 "x").2
      (by
        intro k hk v hveq
        fin_cases hk <;> simp [c4WitJson2, Json.get, lookupLast] at hveq)

/-- Lifecycle invariant of the manager: the live handles are exactly the one
stored on the current download button (or none), and every live handle was
drawn below the freshness counter. -/
def HandleInv (st : AppState) : Prop :=
  match st.container with
  | some (u, _) => st.liveUrls = [u] ∧ u < st.nextUrl
  | none => st.liveUrls = []

theorem handleInv_init : HandleInv initState := by
  unfold HandleInv initState
  exact rfl

theorem revokeExisting_of_inv (st : AppState) (h : HandleInv st) :
    (revokeExisting st).liveUrls = [] ∧ (revokeExisting st).container = none ∧
    (revokeExisting st).nextUrl = st.nextUrl := by
  unfold HandleInv at h
  cases hc : st.container with
  | none =>
    rw [hc] at h
    exact ⟨by simp [revokeExisting, hc, h], by simp [revokeExisting, hc],
      by simp [revokeExisting, hc]⟩
  | some p =>
    obtain ⟨u, f⟩ := p
    rw [hc] at h
    refine ⟨?_, by simp [revokeExisting, hc], by simp [revokeExisting, hc]⟩
    simp [revokeExisting, hc, h.1]

theorem handleInv_step (st : AppState) (e : Event) (h : HandleInv st) :
    HandleInv (step st e) := by
  obtain ⟨hl, hc, hn⟩ :
      (revokeExisting st).liveUrls = [] ∧ (revokeExisting st).container = none ∧
      (revokeExisting st).nextUrl = st.nextUrl := revokeExisting_of_inv st h
  cases e with
  | clear =>
    show HandleInv (clearStep st)
    unfold HandleInv clearStep
    rw [hc]
    exact hl
  | convert r f p =>
    show HandleInv (convertStep st r f p)
    unfold convertStep
    by_cases h1 : jsTrim r = ""
    · rw [if_pos h1]
      unfold HandleInv at h ⊢
      exact h
    · rw [if_neg h1]
      cases hd : atobBytes (cleanup (smartExtract (jsTrim r) p)) with
      | none =>
        unfold HandleInv
        rw [hc]
        exact hl
      | some bs =>
        unfold HandleInv
        simp only [hl]
        exact ⟨rfl, Nat.lt_succ_self _⟩

theorem handleInv_run : ∀ (es : List Event) (st : AppState),
    HandleInv st → HandleInv (run st es)
  | [], _, h => h
  | e :: es, st, h => handleInv_run es (step st e) (handleInv_step st e h)

/-- C6: across any sequence of convert and clear operations at most one
transient handle (object URL) is alive at any time, and a further successful
conversion from a state holding a handle never leaves that handle alive:
the existing handle is revoked before the new one is created. -/
theorem C6_theorem (es : List Event) :
    (run initState es).liveUrls.length ≤ 1 ∧
    (∀ u f raw fname p bs,
      (run initState es).container = some (u, f) →
      ¬ jsTrim raw = "" →
      atobBytes (cleanup (smartExtract (jsTrim raw) p)) = some bs →
      u ∉ (convertStep (run initState es) raw fname p).liveUrls) := by
  have hInv : HandleInv (run initState es) :=
    handleInv_run es initState handleInv_init
  constructor
  · unfold HandleInv at hInv
    cases hc : (run initState es).container with
    | none => rw [hc] at hInv; simp [hInv]
    | some p => obtain ⟨u, f⟩ := p; rw [hc] at hInv; simp [hInv.1]
  · intro u f raw fname p bs hc hne hd
    have hu : u < (run initState es).nextUrl := by
      unfold HandleInv at hInv
      rw [hc] at hInv
      exact hInv.2
    obtain ⟨hl, _, hn⟩ := revokeExisting_of_inv _ hInv
    unfold convertStep
    rw [if_neg hne, hd]
    simp only [hl, hn, List.nil_append, List.mem_singleton]
    omega

theorem C6_witness :
    (0 : Nat) ∉ (convertStep (run initState [Event.convert "QQ==" "" none])
      "QQ==" "" none).liveUrls :=
  (C6_theorem [Event.convert "QQ==" "" none]).2 0 "converted.pdf" "QQ==" ""
    none [65] (by decide) (by decide) (by decide)

theorem decode_encode_sextets : ∀ (bs : List Nat), (∀ b ∈ bs, b < 256) →
    decodeSextets (encodeSextets bs) = bs
  | [], _ => rfl
  | [b0], _h => by
    simp only [encodeSextets, decodeSextets, List.cons.injEq, and_true]
    omega
  | [b0, b1], h => by
    have hb1 : b1 < 256 := h b1 (by simp)
    simp only [encodeSextets, decodeSextets, List.cons.injEq, and_true]
    constructor <;> omega
  | b0 :: b1 :: b2 :: rest, h => by
    have hb1 : b1 < 256 := h b1 (by simp)
    have hb2 : b2 < 256 := h b2 (by simp)
    have ih := decode_encode_sextets rest (fun b hb => h b (by simp [hb]))
    simp only [encodeSextets, decodeSextets, ih, List.cons.injEq, and_true]
    refine ⟨?_, ?_, ?_⟩ <;> omega

theorem encodeSextets_lt : ∀ (bs : List Nat), (∀ b ∈ bs, b < 256) →
    ∀ s ∈ encodeSextets bs, s < 64
  | [], _ => by simp [encodeSextets]
  | [b0], h => by
    have hb0 : b0 < 256 := h b0 (by simp)
    simp only [encodeSextets, List.mem_cons, List.not_mem_nil, or_false]
    rintro s (rfl | rfl) <;> omega
  | [b0, b1], h => by
    have hb0 : b0 < 256 := h b0 (by simp)
    have hb1 : b1 < 256 := h b1 (by simp)
    simp only [encodeSextets, List.mem_cons, List.not_mem_nil, or_false]
    rintro s (rfl | rfl | rfl) <;> omega
  | b0 :: b1 :: b2 :: rest, h => by
    have hb0 : b0 < 256 := h b0 (by simp)
    have hb1 : b1 < 256 := h b1 (by simp)
    have hb2 : b2 < 256 := h b2 (by simp)
    have ih := encodeSextets_lt rest (fun b hb => h b (by simp [hb]))
    simp only [encodeSextets, List.mem_cons]
    rintro s (rfl | rfl | rfl | rfl | hs)
    · omega
    · omega
    · omega
    · omega
    · exact ih s hs

theorem encodeSextets_length : ∀ (bs : List Nat),
    (encodeSextets bs).length = (4 * bs.length + 2) / 3
  | [] => rfl
  | [_] => by simp only [encodeSextets, List.length_cons, List.length_nil]
  | [_, _] => by simp only [encodeSextets, List.length_cons, List.length_nil]
  | b0 :: b1 :: b2 :: rest => by
    have ih := encodeSextets_length rest
    simp only [encodeSextets, List.length_cons, ih]
    omega

theorem decChar_encChar : ∀ n, n < 64 → decChar (encChar n) = some n := by
  decide

theorem encChar_not_pad : ∀ n, n < 64 →
    isAsciiWs (encChar n) = false ∧ ¬ encChar n = '=' := by
  decide

theorem decodeChars_map_encChar : ∀ (ss : List Nat), (∀ s ∈ ss, s < 64) →
    decodeChars (ss.map encChar) = some ss
  | [], _ => rfl
  | s :: ss, h => by
    have ih := decodeChars_map_encChar ss (fun a ha => h a (by simp [ha]))
    simp only [List.map_cons, decodeChars, decChar_encChar s (h s (by simp)), ih]

theorem getLast?_ne_of_not_mem {l : List Char} {a : Char} (h : a ∉ l) :
    ¬ l.getLast? = some a :=
  fun hEq => h (List.mem_of_getLast?_eq_some hEq)

theorem stripPad_no_pad (l : List Char) (h : '=' ∉ l) : stripPad l = l := by
  unfold stripPad
  by_cases h4 : l.length % 4 = 0
  · rw [if_pos h4]
    simp only [if_neg (getLast?_ne_of_not_mem h)]
  · rw [if_neg h4]

theorem stripPad_one (l : List Char) (h : '=' ∉ l)
    (h4 : (l.length + 1) % 4 = 0) : stripPad (l ++ ['=']) = l := by
  unfold stripPad
  rw [if_pos (by simpa using h4)]
  simp only [List.getLast?_concat, if_pos, List.dropLast_concat,
    if_neg (getLast?_ne_of_not_mem h)]

theorem stripPad_two (l : List Char) (_h : '=' ∉ l)
    (h4 : (l.length + 2) % 4 = 0) : stripPad (l ++ ['=', '=']) = l := by
  have hsplit : l ++ ['=', '='] = (l ++ ['=']) ++ ['='] := by simp
  unfold stripPad
  rw [hsplit, if_pos (by simp; omega)]
  simp only [List.getLast?_concat, if_pos, List.dropLast_concat]

theorem atobBytes_base64Encode (bs : List Nat) (h : ∀ b ∈ bs, b < 256) :
    atobBytes (base64Encode bs) = some bs := by
  have h64 := encodeSextets_lt bs h
  have hlen := encodeSextets_length bs
  have hllen : ((encodeSextets bs).map encChar).length = (4 * bs.length + 2) / 3 := by
    rw [List.length_map]; exact hlen
  have hnotmem : '=' ∉ (encodeSextets bs).map encChar := by
    intro hmem
    obtain ⟨s, hs, hEq⟩ := List.mem_map.mp hmem
    exact (encChar_not_pad s (h64 s hs)).2 hEq
  have hfilter :
      ((encodeSextets bs).map encChar ++
        List.replicate (padLen bs.length) '=').filter (fun c => !(isAsciiWs c)) =
      (encodeSextets bs).map encChar ++ List.replicate (padLen bs.length) '=' := by
    apply List.filter_eq_self.mpr
    intro c hc
    rcases List.mem_append.mp hc with hcl | hcr
    · obtain ⟨s, hs, rfl⟩ := List.mem_map.mp hcl
      simp [(encChar_not_pad s (h64 s hs)).1]
    · have hce : c = '=' := List.eq_of_mem_replicate hcr
      subst hce; decide
  simp only [atobBytes, base64Encode, data_mk]
  rw [hfilter]
  have h3 : bs.length % 3 = 0 ∨ bs.length % 3 = 1 ∨ bs.length % 3 = 2 := by omega
  rcases h3 with m3 | m3 | m3
  · have hpad : padLen bs.length = 0 := by simp [padLen, m3]
    rw [hpad]
    simp only [List.replicate, List.append_nil]
    rw [stripPad_no_pad _ hnotmem]
    rw [if_neg (by omega)]
    simp only [decodeChars_map_encChar _ h64]
    simp only [decode_encode_sextets bs h]
  · have hpad : padLen bs.length = 2 := by simp [padLen, m3]
    rw [hpad]
    rw [show List.replicate 2 '=' = ['=', '='] from rfl]
    rw [stripPad_two _ hnotmem (by omega)]
    rw [if_neg (by omega)]
    simp only [decodeChars_map_encChar _ h64]
    simp only [decode_encode_sextets bs h]
  · have hpad : padLen bs.length = 1 := by simp [padLen, m3]
    rw [hpad]
    rw [show List.replicate 1 '=' = ['='] from rfl]
    rw [stripPad_one _ hnotmem (by omega)]
    rw [if_neg (by omega)]
    simp only [decodeChars_map_encChar _ h64]
    simp only [decode_encode_sextets bs h]

theorem charToNat_ofNat_of_lt {n : Nat} (h : n < 256) :
    (Char.ofNat n).toNat = n := by
  have hv : n.isValidChar := Or.inl (by omega)
  rw [Char.ofNat, dif_pos hv]
  rfl

/-- C10: for every byte sequence the upload-path encoder
`arrayBufferToBase64` succeeds and produces the standard base64 encoding of
the bytes, and decoding its output yields exactly the original bytes. -/
theorem C10_theorem (bytes : List Nat) (h : ∀ b ∈ bytes, b < 256) :
    arrayBufferToBase64 bytes = some (base64Encode bytes) ∧
    atobBytes (base64Encode bytes) = some bytes := by
  constructor
  · unfold arrayBufferToBase64 btoa fromCharCodes
    have hmap : (bytes.map Char.ofNat).map Char.toNat = bytes := by
      rw [List.map_map]
      have : ∀ b ∈ bytes, (Char.toNat ∘ Char.ofNat) b = id b := by
        intro b hb
        exact charToNat_ofNat_of_lt (h b hb)
      rw [List.map_congr_left this, List.map_id]
    have hall : (bytes.map Char.ofNat).all (fun c => c.toNat < 256) = true := by
      rw [List.all_eq_true]
      intro c hc
      obtain ⟨b, hb, rfl⟩ := List.mem_map.mp hc
      simp [charToNat_ofNat_of_lt (h b hb), h b hb]
    rw [if_pos hall, hmap]
  · exact atobBytes_base64Encode bytes h

theorem C10_witness :
    arrayBufferToBase64 [72, 101, 108] = some "SGVs" ∧
    atobBytes "SGVs" = some [72, 101, 108] := by
  have h := C10_theorem [72, 101, 108] (by decide)
  have he : base64Encode [72, 101, 108] = "SGVs" := by decide
  exact ⟨by rw [h.1, he], by rw [← he]; exact h.2⟩

/-- C3 is false as stated: `atob` is the forgiving base64 decoder, so the
normalized string `QQ` (valid input without padding) decodes successfully
to the byte 65, but re-encoding that byte yields the canonical `QQ==`,
not `QQ`. -/
theorem C3_counterexample :
    cleanup "QQ" = "QQ" ∧ atobBytes "QQ" = some [65] ∧
    base64Encode [65] = "QQ==" ∧ ¬ ("QQ==" : String) = "QQ" := by
  refine ⟨?_, ?_, ?_, ?_⟩ <;> decide

/-- C3 (amended): decoding followed by re-encoding reproduces the
normalized string exactly whenever that string is the canonical base64
encoding of some byte sequence; for the non-canonical strings that the
forgiving decoder also accepts (omitted padding or nonzero leftover bits),
re-encoding yields the canonical form instead. -/
theorem C3_theorem (s : String)
    (h : ∃ bs : List Nat, (∀ b ∈ bs, b < 256) ∧ s = base64Encode bs) :
    ∃ bs : List Nat, atobBytes s = some bs ∧ base64Encode bs = s := by
  obtain ⟨bs, hb, rfl⟩ := h
  exact ⟨bs, atobBytes_base64Encode bs hb, rfl⟩

theorem C3_witness :
    ∃ bs : List Nat, atobBytes "SGk=" = some bs ∧ base64Encode bs = "SGk=" :=
  C3_theorem "SGk=" ⟨[72, 105], by decide, by decide⟩

/-- No contiguous segment of 100 or more base64-alphabet characters occurs
in the list. -/
def noHundredRun (cs : List Char) : Prop :=
  ∀ l m r : List Char, cs = l ++ m ++ r → (∀ c ∈ m, isB64Char c = true) →
    m.length < 100

theorem noHundredRun_suffix (x y : List Char) (h : noHundredRun (x ++ y)) :
    noHundredRun y := by
  intro l m r hEq hm
  exact h (x ++ l) m r (by rw [hEq]; simp [List.append_assoc]) hm

theorem acc_lt_of_noHundredRun (acc rest : List Char)
    (hacc : ∀ c ∈ acc, isB64Char c = true)
    (hnr : noHundredRun (acc.reverse ++ rest)) : acc.length < 100 := by
  have := hnr [] acc.reverse rest (by simp)
    (fun c hc => hacc c (List.mem_reverse.mp hc))
  simpa using this

theorem firstLongRunAux_run (post : List Char)
    (hpost : ∀ c, post.head? = some c → isB64Char c = false) :
    ∀ (rest acc : List Char), (∀ c ∈ rest, isB64Char c = true) →
    100 ≤ acc.length + rest.length →
    firstLongRunAux (rest ++ post) acc = some (acc.reverse ++ rest)
  | [], acc, _, hlen => by
    cases hp : post with
    | nil =>
      subst hp
      simp only [List.nil_append, List.append_nil, firstLongRunAux]
      rw [if_pos (by simpa using hlen)]
    | cons c post2 =>
      subst hp
      have hc : isB64Char c = false := hpost c rfl
      simp only [List.nil_append, List.append_nil, firstLongRunAux]
      rw [if_neg (by simp [hc]), if_pos (by simpa using hlen)]
  | r :: rest, acc, hrest, hlen => by
    have hr : isB64Char r = true := hrest r (by simp)
    have ih := firstLongRunAux_run post hpost rest (r :: acc)
      (fun c hc => hrest c (by simp [hc]))
      (by simp only [List.length_cons] at hlen ⊢; omega)
    rw [List.cons_append]
    simp only [firstLongRunAux, hr, if_true]
    rw [ih]
    simp

theorem firstLongRunAux_skip (tail : List Char) (d : Char)
    (hd : isB64Char d = false) :
    ∀ (pre acc : List Char), pre.getLast? = some d →
    (∀ c ∈ acc, isB64Char c = true) →
    noHundredRun (acc.reverse ++ pre) →
    firstLongRunAux (pre ++ tail) acc = firstLongRunAux tail []
  | [], _, hgl, _, _ => by simp at hgl
  | [c], acc, hgl, hacc, hnr => by
    have hc : c = d := by simpa using hgl
    subst hc
    have hlt : acc.length < 100 :=
      acc_lt_of_noHundredRun acc [c] hacc hnr
    rw [List.cons_append, List.nil_append]
    simp only [firstLongRunAux]
    rw [if_neg (by simp [hd]), if_neg (by omega)]
  | c :: c2 :: pre2, acc, hgl, hacc, hnr => by
    have hgl2 : (c2 :: pre2).getLast? = some d := by
      rw [List.getLast?_cons_cons] at hgl
      exact hgl
    by_cases hc : isB64Char c = true
    · have ih := firstLongRunAux_skip tail d hd (c2 :: pre2) (c :: acc) hgl2
        (by intro a ha; rcases List.mem_cons.mp ha with rfl | ha2
            exacts [hc, hacc a ha2])
        (by rw [show (c :: acc).reverse ++ (c2 :: pre2) =
              acc.reverse ++ (c :: c2 :: pre2) by simp]
            exact hnr)
      rw [List.cons_append]
      simp only [firstLongRunAux, hc, if_true]
      exact ih
    · have hlt : acc.length < 100 :=
        acc_lt_of_noHundredRun acc (c :: c2 :: pre2) hacc hnr
      have ih := firstLongRunAux_skip tail d hd (c2 :: pre2) [] hgl2
        (by simp)
        (by
          simp only [List.reverse_nil, List.nil_append]
          refine noHundredRun_suffix (acc.reverse ++ [c]) _ ?_
          rw [show acc.reverse ++ [c] ++ (c2 :: pre2) =
            acc.reverse ++ (c :: c2 :: pre2) by simp]
          exact hnr)
      rw [List.cons_append]
      simp only [firstLongRunAux]
      rw [if_neg (by simp [hc]), if_neg (by omega)]
      exact ih

theorem firstLongRunAux_none : ∀ (cs acc : List Char),
    (∀ c ∈ acc, isB64Char c = true) →
    noHundredRun (acc.reverse ++ cs) →
    firstLongRunAux cs acc = none
  | [], acc, hacc, hnr => by
    have hlt : acc.length < 100 := acc_lt_of_noHundredRun acc [] hacc hnr
    simp only [firstLongRunAux]
    rw [if_neg (by omega)]
  | c :: cs, acc, hacc, hnr => by
    by_cases hc : isB64Char c = true
    · have ih := firstLongRunAux_none cs (c :: acc)
        (by intro a ha; rcases List.mem_cons.mp ha with rfl | ha2
            exacts [hc, hacc a ha2])
        (by rw [show (c :: acc).reverse ++ cs = acc.reverse ++ (c :: cs) by simp]
            exact hnr)
      simp only [firstLongRunAux, hc, if_true]
      exact ih
    · have hlt : acc.length < 100 :=
        acc_lt_of_noHundredRun acc (c :: cs) hacc hnr
      have ih := firstLongRunAux_none cs [] (by simp)
        (by
          simp only [List.reverse_nil, List.nil_append]
          refine noHundredRun_suffix (acc.reverse ++ [c]) _ ?_
          rw [show acc.reverse ++ [c] ++ cs = acc.reverse ++ (c :: cs) by simp]
          exact hnr)
      simp only [firstLongRunAux]
      rw [if_neg (by simp [hc]), if_neg (by omega)]
      exact ih

/-- The C2 counterexample input: a first maximal base64 run of exactly 100
characters, then a separator, then a longer run of 150 characters. -/
def c2Input : String :=
  String.mk (('!' :: List.replicate 100 'A') ++ '!' :: List.replicate 150 'B')

set_option maxRecDepth 40000 in
/-- C2 is false as stated: on input holding a run of 100 `A`s followed by a
longer run of 150 `B`s, the claim requires the longest run (the `B`s), but
`match` without the global flag returns the leftmost match, so the extractor
selects the first 100-character run of `A`s. -/
theorem C2_counterexample :
    c2Input.data = ('!' :: List.replicate 100 'A') ++ '!' :: List.replicate 150 'B' ∧
    smartExtract c2Input none = String.mk (List.replicate 100 'A') ∧
    ¬ smartExtract c2Input none = String.mk (List.replicate 150 'B') := by
  refine ⟨rfl, ?_, ?_⟩ <;> decide

/-- C2 (amended): for non-JSON raw input, the extractor selects in full the
first (leftmost) maximal contiguous run of at least 100 base64-alphabet
characters — not necessarily the longest such run; when no run of at least
100 characters exists, the raw input is kept unchanged. -/
theorem C2_theorem (s : String) :
    (∀ pre runChars post : List Char,
      s.data = pre ++ runChars ++ post →
      (∀ c ∈ runChars, isB64Char c = true) →
      100 ≤ runChars.length →
      (∀ c, pre.getLast? = some c → isB64Char c = false) →
      (∀ c, post.head? = some c → isB64Char c = false) →
      noHundredRun pre →
      smartExtract s none = String.mk runChars) ∧
    (noHundredRun s.data → smartExtract s none = s) := by
  constructor
  · intro pre runChars post hsplit hrun hlen hpre hpost hnr
    unfold smartExtract
    show (if s.data.any (fun c => !(isB64Char c)) = true
      then (firstLongRun s).getD s else s) = String.mk runChars
    cases hp : pre with
    | nil =>
      subst hp
      simp only [List.nil_append] at hsplit
      cases hq : post with
      | nil =>
        subst hq
        simp only [List.append_nil] at hsplit
        rw [if_neg]
        · calc s = String.mk s.data := (mk_data s).symm
            _ = String.mk runChars := by rw [hsplit]
        · simp only [List.any_eq_true, not_exists, not_and]
          intro c hc
          rw [hsplit] at hc
          simp [hrun c hc]
      | cons c post2 =>
        subst hq
        have hc : isB64Char c = false := hpost c rfl
        rw [if_pos]
        · unfold firstLongRun
          rw [hsplit]
          rw [firstLongRunAux_run (c :: post2) hpost runChars [] hrun
            (by simpa using hlen)]
          simp
        · simp only [List.any_eq_true]
          exact ⟨c, by rw [hsplit]; simp, by simp [hc]⟩
    | cons d pre2 =>
      cases hgl : pre.getLast? with
      | none =>
        rw [List.getLast?_eq_none_iff] at hgl
        rw [hp] at hgl
        exact absurd hgl (by simp)
      | some dl =>
        have hdl : isB64Char dl = false := hpre dl hgl
        have hmem : dl ∈ s.data := by
          rw [hsplit]
          exact List.mem_append_left _
            (List.mem_append_left _ (List.mem_of_getLast?_eq_some hgl))
        rw [if_pos]
        · unfold firstLongRun
          rw [hsplit, List.append_assoc]
          rw [firstLongRunAux_skip (runChars ++ post) dl hdl pre [] hgl
            (by simp) (by simpa)]
          rw [firstLongRunAux_run post hpost runChars [] hrun
            (by simpa using hlen)]
          simp
        · simp only [List.any_eq_true]
          exact ⟨dl, hmem, by simp [hdl]⟩
  · intro hnr
    unfold smartExtract
    show (if s.data.any (fun c => !(isB64Char c)) = true
      then (firstLongRun s).getD s else s) = s
    by_cases hdirty : s.data.any (fun c => !(isB64Char c)) = true
    · rw [if_pos hdirty]
      unfold firstLongRun
      rw [firstLongRunAux_none s.data [] (by simp) (by simpa)]
      rfl
    · rw [if_neg hdirty]

theorem C2_witness :
    smartExtract (String.mk (List.replicate 100 'A' ++ ['!'])) none =
      String.mk (List.replicate 100 'A') ∧
    smartExtract "ab!cd" none = "ab!cd" := by
  constructor
  · exact (C2_theorem _).1 [] (List.replicate 100 'A') ['!'] rfl
      (by decide) (by decide) (by intro c hc; simp at hc)
      (by intro c hc; rw [show c = '!' by simpa using hc.symm]; decide)
      (by intro l m r hEq hm
          have := congrArg List.length hEq
          simp at this
          omega)
  · have h2 := C2_theorem "ab!cd"
    exact h2.2
      (by intro l m r hEq hm
          have := congrArg List.length hEq
          have h5 : ("ab!cd" : String).data.length = 5 := rfl
          rw [h5] at this
          simp at this
          omega)
